import Mathlib

set_option autoImplicit false

/-!
Verification development for the clice language server's index and support
components: the merged symbol index (`src/Index/MergedIndex.cpp`), the
per-file symbol index builder (`src/Index/SymbolIndex.cpp`), the string pool
(`src/Support/StringPool.cpp`), the open-file LRU (`src/Server/Server.cpp`),
the LSP inbound framing (`src/Async/Network.cpp`) and the compiler driver
prober (`src/Compiler/Driver.h`). Each C++ function is embedded as a Lean
function over explicit state; machine integers become `Nat` with explicit
wrap-around where the width matters.
-/

namespace Clice

/-! ## Generic containers

Association lists stand in for `llvm::DenseMap` / `llvm::StringMap`: a list of
key-value pairs with at most one live binding per key (lookups return the
first binding). Iteration order of a `DenseMap` is unspecified in C++; the
model fixes it to insertion order, one of the admissible orders. -/

/-- First value bound to `k` in an association list (a `DenseMap` lookup). -/
def alist_find? {κ ν : Type} [DecidableEq κ] (m : List (κ × ν)) (k : κ) : Option ν :=
  match m with
  | [] => none
  | (k', v) :: rest => if k' = k then some v else alist_find? rest k

/-- Rewrite the value bound to `k` in place; when `k` is absent, bind `f d` at
the end. This is the effect of `DenseMap::operator[]` (default-inserting `d`)
followed by a mutation `f` of the mapped value. -/
def alist_modify {κ ν : Type} [DecidableEq κ] (m : List (κ × ν)) (k : κ) (d : ν) (f : ν → ν) :
    List (κ × ν) :=
  match m with
  | [] => [(k, f d)]
  | (k', v) :: rest => if k' = k then (k', f v) :: rest else (k', v) :: alist_modify rest k d f

/-- Remove the first binding of `k`, keeping every other entry in order. -/
def alist_erase {κ ν : Type} [DecidableEq κ] (m : List (κ × ν)) (k : κ) : List (κ × ν) :=
  match m with
  | [] => []
  | (k', v) :: rest => if k' = k then rest else (k', v) :: alist_erase rest k

/-- Insert `x` into a list before the first element that is not below it. -/
def insertByLt {α : Type} (lt : α → α → Bool) (x : α) : List α → List α
  | [] => [x]
  | y :: ys => if lt y x then y :: insertByLt lt x ys else x :: y :: ys

/-- Stable comparison sort standing in for `std::ranges::sort`. The C++ standard
leaves the order of equivalent elements open; the model picks the stable order,
which is an admissible outcome (and the one produced by the library's
insertion sort on small ranges). -/
def sortByLt {α : Type} (lt : α → α → Bool) : List α → List α
  | [] => []
  | x :: xs => insertByLt lt x (sortByLt lt xs)

/-- Binary search exactly as `std::ranges::lower_bound` performs it: classic
half-interval search over positions `[lo, hi)`. On input that is not
partitioned with respect to `key · < value` it still returns the deterministic
result of this search, just as the library implementation does. The first
argument bounds the number of halving steps; every step shrinks `hi - lo` by
at least one, so a budget of `hi - lo` steps never runs out. -/
def lower_bound_go {α : Type} (key : α → Nat) (xs : List α) (value : Nat) :
    Nat → Nat → Nat → Nat
  | 0, lo, _ => lo
  | fuel + 1, lo, hi =>
    if lo < hi then
      match xs[(lo + hi) / 2]? with
      | none => lo
      | some x =>
        if key x < value then
          lower_bound_go key xs value fuel ((lo + hi) / 2 + 1) hi
        else
          lower_bound_go key xs value fuel lo ((lo + hi) / 2)
    else lo

/-- Index of the first element considered by the scan that follows a
`lower_bound` call over a whole sequence. -/
def lower_bound {α : Type} (key : α → Nat) (xs : List α) (value : Nat) : Nat :=
  lower_bound_go key xs value xs.length 0 xs.length

/-! ## Index data model

Types from `include/Index/TUIndex.h` and the state of
`MergedIndex::Impl` in `src/Index/MergedIndex.cpp`. -/

/-- Modelled from the spec: `LocalSourceRange` is declared in
`AST/SourceCode.h`, which is absent from the sources at hand; the spec fixes
it as a half-open `[begin, end)` pair of byte offsets within a single file. -/
structure LocalSourceRange where
  begin_ : Nat
  end_ : Nat
deriving DecidableEq

/-- Modelled from the spec: containment in a half-open range
("Lookup at offset equal to a range's `end`: not returned"). -/
def LocalSourceRange.contains (r : LocalSourceRange) (offset : Nat) : Bool :=
  decide (r.begin_ ≤ offset) && decide (offset < r.end_)

/-- Occurrence of a symbol (`struct Occurrence` in `include/Index/TUIndex.h`):
a local range plus the 64-bit stable hash of the referenced symbol. -/
structure Occurrence where
  range : LocalSourceRange
  target : Nat
deriving DecidableEq

/-- Relation record (`struct Relation` in `include/Index/TUIndex.h`). The kind
is modelled from the spec as a bit mask (`AST/RelationKind.h` is absent from
the sources at hand): two kinds intersect when their bitwise AND is nonzero.
The union member is read through `target_symbol`, the field the merged index's
hashing and equality use. -/
structure Relation where
  kind : Nat
  range : LocalSourceRange
  target_symbol : Nat
deriving DecidableEq

/-- Modelled from the spec: `refl::less` (from the absent `Support/Compare.h`)
compares reflected structs lexicographically in field declaration order; on
`Occurrence` that is the key `(range.begin, range.end, target)`, the order the
spec names for occurrence sorting. -/
def occ_lt (a b : Occurrence) : Bool :=
  decide (a.range.begin_ < b.range.begin_) ||
    (decide (a.range.begin_ = b.range.begin_) &&
      (decide (a.range.end_ < b.range.end_) ||
        (decide (a.range.end_ = b.range.end_) && decide (a.target < b.target))))

/-- A roaring bitmap of canonical ids, modelled as its list of set bits. -/
abbrev Bitmap := List Nat

/-- Roaring `add`: set one bit. -/
def bitmap_add (b : Bitmap) (id : Nat) : Bitmap :=
  if id ∈ b then b else b ++ [id]

/-- Per translation-unit header context (`HeaderContext` as used by
`MergedIndex.cpp`): a version and the list of
`(include-chain position, canonical id)` bindings. -/
structure HeaderContext where
  version : Nat
  includes : List (Nat × Nat)
deriving DecidableEq

instance : Inhabited HeaderContext := ⟨{ version := 0, includes := [] }⟩

/-- In-memory state of the merged index (`MergedIndex::Impl`). The unused
`content` string is omitted. Canonical cache keys are the SHA-256 bytes of a
file index. -/
structure Impl where
  header_contexts : List (Nat × HeaderContext)
  max_canonical_id : Nat
  canonical_cache : List (List Nat × Nat)
  canonical_ref_counts : List Nat
  removed : List Nat
  occurrences : List (Occurrence × Bitmap)
  relations : List (Nat × List (Relation × Bitmap))
deriving DecidableEq

/-- The state a default-constructed `MergedIndex::Impl` holds. -/
def Impl.empty : Impl :=
  { header_contexts := []
    max_canonical_id := 0
    canonical_cache := []
    canonical_ref_counts := []
    removed := []
    occurrences := []
    relations := [] }

/-- The persisted flatbuffer layout written by `MergedIndex::serialize`: the
canonical cache, header contexts, occurrence table and relation table, each in
the map's iteration order (the code performs no sorting while writing). -/
structure SerializedIndex where
  max_canonical_id : Nat
  canonical_cache : List (List Nat × Nat)
  contexts : List (Nat × HeaderContext)
  occurrences : List (Occurrence × Bitmap)
  relations : List (Nat × List (Relation × Bitmap))
deriving DecidableEq

/-- A `MergedIndex` handle: an optional memory-mapped buffer and an optional
in-memory state, exactly the two members the lookup paths dispatch on. -/
structure MergedIndex where
  buffer : Option SerializedIndex
  impl : Option Impl

/-- One per-file index snapshot (`struct FileIndex` in
`include/Index/TUIndex.h`). The `hash` field carries the SHA-256 bytes that
`FileIndex::hash()` derives from the serialized canonical form; byte-identical
snapshots carry equal bytes, and `merge` only ever compares these bytes. -/
structure FileIndex where
  occurrences : List Occurrence
  relations : List (Nat × List Relation)
  hash : List Nat
deriving DecidableEq

/-! ## MergedIndex operations (`src/Index/MergedIndex.cpp`) -/

/-- The sorted occurrence cache the offset lookup builds on first use: the keys
of the occurrence map, sorted with `refl::less`. -/
def occurrences_cache (impl : Impl) : List Occurrence :=
  sortByLt occ_lt (impl.occurrences.map Prod.fst)

/-- Shared scan of both lookup paths: position the iterator with a
`lower_bound` on `range.end`, then report occurrences while they contain the
offset, stopping at the first that does not. -/
def lookup_from (occs : List Occurrence) (offset : Nat) : List Occurrence :=
  (occs.drop (lower_bound (fun o => o.range.end_) occs offset)).takeWhile
    (fun o => o.range.contains offset)

/-- `MergedIndex::lookup(offset, callback)` with a callback that always
returns true: the list of occurrences handed to the callback, in order. The
in-memory path scans the `refl::less`-sorted cache; the memory-mapped path
scans the persisted occurrence table in its serialized order. -/
def MergedIndex.lookup_offset (self : MergedIndex) (offset : Nat) : List Occurrence :=
  match self.impl with
  | some impl => lookup_from (occurrences_cache impl) offset
  | none =>
    match self.buffer with
    | some buf => lookup_from (buf.occurrences.map Prod.fst) offset
    | none => []

/-- `MergedIndex::lookup(symbol, kind, callback)` with a callback that always
returns true. The in-memory path iterates every relation of the symbol; the
memory-mapped path locates the symbol's row with a `lower_bound` and keeps the
relations whose kind intersects the mask. -/
def MergedIndex.lookup_symbol (self : MergedIndex) (symbol kind : Nat) : List Relation :=
  match self.impl with
  | some impl => ((alist_find? impl.relations symbol).getD []).map Prod.fst
  | none =>
    match self.buffer with
    | some buf =>
      match buf.relations[lower_bound (fun e => e.1) buf.relations symbol]? with
      | none => []
      | some e =>
        if e.1 = symbol then
          (e.2.map Prod.fst).filter (fun r => (r.kind &&& kind) != 0)
        else []
    | none => []

/-- `MergedIndex::load`: when the file cannot be opened the handle is default
constructed (no buffer, no in-memory state); otherwise it wraps the mapped
buffer, leaving the in-memory state unbuilt. -/
def MergedIndex.load (file : Option SerializedIndex) : MergedIndex :=
  match file with
  | none => { buffer := none, impl := none }
  | some buffer => { buffer := some buffer, impl := none }

/-- Size of the `std::uint32_t` value space; reference counts live in it. -/
def u32_size : Nat := 4294967296

/-- Increment (with 32-bit wrap-around) the counter at position `id`; out of
range accesses, undefined in C++, leave the model unchanged. -/
def list_inc_u32 : List Nat → Nat → List Nat
  | [], _ => []
  | x :: xs, 0 => ((x + 1) % u32_size) :: xs
  | x :: xs, Nat.succ n => x :: list_inc_u32 xs n

/-- `MergedIndex::merge(path_id, include_id, file_index)` on the in-memory
state: look the snapshot's SHA-256 up in the canonical cache, record the
binding `(include_id, canonical id)` under `path_id`, and either bump the
existing id's reference count and drop it from the tombstone set, or allocate
the next canonical id, tag every occurrence and relation of the snapshot with
it, and seed its reference count at 1. -/
def Impl.merge (impl : Impl) (path_id include_id : Nat) (fi : FileIndex) : Impl :=
  match alist_find? impl.canonical_cache fi.hash with
  | some canonical_id =>
    { impl with
      header_contexts := alist_modify impl.header_contexts path_id default
        (fun c => { c with includes := c.includes ++ [(include_id, canonical_id)] })
      canonical_ref_counts := list_inc_u32 impl.canonical_ref_counts canonical_id
      removed := impl.removed.filter (fun x => x != canonical_id) }
  | none =>
    let canonical_id := impl.max_canonical_id
    { impl with
      canonical_cache := impl.canonical_cache ++ [(fi.hash, canonical_id)]
      header_contexts := alist_modify impl.header_contexts path_id default
        (fun c => { c with includes := c.includes ++ [(include_id, canonical_id)] })
      occurrences := fi.occurrences.foldl
        (fun m o => alist_modify m o [] (fun b => bitmap_add b canonical_id))
        impl.occurrences
      relations := fi.relations.foldl
        (fun m p => alist_modify m p.1 []
          (fun rs => p.2.foldl
            (fun rs' r => alist_modify rs' r [] (fun b => bitmap_add b canonical_id)) rs))
        impl.relations
      canonical_ref_counts := impl.canonical_ref_counts ++ [1]
      max_canonical_id := canonical_id + 1 }

/-- `MergedIndex::remove(path_id)`: decrement (32-bit wrap) the reference count
of every canonical id bound under `path_id`, tombstone the ids whose count
reaches zero, then clear the binding list. -/
def Impl.remove (impl : Impl) (path_id : Nat) : Impl :=
  let includes := ((alist_find? impl.header_contexts path_id).getD default).includes
  let folded := includes.foldl
    (fun (acc : List Nat × List Nat) (binding : Nat × Nat) =>
      match acc.1[binding.2]? with
      | none => acc
      | some x =>
        let x' := (x + (u32_size - 1)) % u32_size
        (acc.1.set binding.2 x', if x' = 0 then bitmap_add acc.2 binding.2 else acc.2))
    (impl.canonical_ref_counts, impl.removed)
  { impl with
    canonical_ref_counts := folded.1
    removed := folded.2
    header_contexts := alist_modify impl.header_contexts path_id default
      (fun c => { c with includes := [] }) }

/-- `MergedIndex::serialize`: emit the current state into the binary container.
The receiver is `const`, so the state after serialization (second component)
is the state before; the emitted tables copy the maps verbatim — no
renumbering map is built, no bitmap bits are cleared, no cache entry is
dropped, and the tombstone set is not consulted. -/
def Impl.serialize (impl : Impl) : SerializedIndex × Impl :=
  ({ max_canonical_id := impl.max_canonical_id
     canonical_cache := impl.canonical_cache
     contexts := impl.header_contexts
     occurrences := impl.occurrences
     relations := impl.relations }, impl)

/-! ## SymbolIndexBuilder (`src/Index/SymbolIndex.cpp`)

The builder accumulates interned symbols, interned ranges and occurrences
that refer to both by index; `SymbolIndexBuilder::sort` canonicalizes the
three tables. Only the occurrence-producing part of `sort` is embedded; the
relation rewriting that follows it does not touch the occurrence list. -/

namespace builder

/-- In-memory symbol entry (`memory::Symbol`). Modelled from the spec for the
absent `SymbolID` type: the id is reduced to its 64-bit stable hash; the kind
is the numeric symbol kind. The relation list does not participate in symbol
ordering and is omitted. -/
structure Symbol where
  id : Nat
  kind : Nat
deriving DecidableEq

/-- In-memory occurrence (`memory::Occurrence`): index of the interned range
and index of the interned symbol. -/
structure Occurrence where
  location : Nat
  symbol : Nat
deriving DecidableEq

/-- Builder state: the three tables `sort` operates on. -/
structure Builder where
  symbols : List Symbol
  ranges : List LocalSourceRange
  occurrences : List Occurrence
deriving DecidableEq

/-- Lexicographic `refl::less` on the sort key `(symbol.id, symbol.kind)`. -/
def symbol_lt (a b : Symbol) : Bool :=
  decide (a.id < b.id) || (decide (a.id = b.id) && decide (a.kind < b.kind))

/-- Lexicographic `refl::less` on ranges: the key `(begin, end)`. -/
def range_lt (a b : LocalSourceRange) : Bool :=
  decide (a.begin_ < b.begin_) ||
    (decide (a.begin_ = b.begin_) && decide (a.end_ < b.end_))

/-- Position of the entry carrying original index `old` inside a sorted
enumeration: the content of `map[new2old[i]] = i`. -/
def perm_pos {α : Type} (sorted : List (Nat × α)) (old : Nat) : Nat :=
  match sorted with
  | [] => 0
  | (i, _) :: rest => if i = old then 0 else perm_pos rest old + 1

/-- Old-index-to-new-index map obtained by sorting the enumerated entries with
a stable sort on the entry key (the `new2old` array starts out as the
identity, so stability reproduces `ranges::sort` on the zipped view). -/
def index_map {α : Type} (lt : α → α → Bool) (entries : List α) (old : Nat) : Nat :=
  perm_pos (sortByLt (fun a b => lt a.2 b.2) entries.enum) old

/-- `ranges::unique` + `erase`: drop every element equal to its immediate
predecessor, keeping the first of each run of adjacent duplicates. -/
def erase_adjacent_dups {α : Type} [DecidableEq α] : List α → List α
  | [] => []
  | x :: xs => x :: erase_adjacent_dups_go x xs
where erase_adjacent_dups_go (prev : α) : List α → List α
  | [] => []
  | y :: ys => if prev = y then erase_adjacent_dups_go prev ys else y :: erase_adjacent_dups_go y ys

/-- The occurrence list `SymbolIndexBuilder::sort` leaves behind: symbols are
sorted by `(id, kind)` and ranges by `(begin, end)` to build the two index
maps, occurrences are rewritten through both maps, sorted by their `location`
field alone (the projection in the code), and adjacent duplicates are erased. -/
def sort_occurrences (b : Builder) : List Occurrence :=
  let symbolMap := index_map symbol_lt b.symbols
  let locationMap := index_map range_lt b.ranges
  let rewritten := b.occurrences.map
    (fun o => { location := locationMap o.location, symbol := symbolMap o.symbol })
  erase_adjacent_dups (sortByLt (fun a b => decide (a.location < b.location)) rewritten)

end builder

/-! ## StringPool (`src/Support/StringPool.cpp`)

A byte string is a `List Nat`; the bump allocator is abstracted to a supply of
fresh addresses (each real allocation returns a region disjoint from every
earlier one, so two interned strings are pointer-identical precisely when they
came from the same allocation). -/

/-- Pool state: content-keyed intern set mapping the stored bytes to the
address of their allocation, plus the next fresh address. -/
structure StringPool where
  pooled_strs : List (List Nat × Nat)
  next_addr : Nat
deriving DecidableEq

/-- The default-constructed pool. -/
def StringPool.empty : StringPool := { pooled_strs := [], next_addr := 0 }

/-- `StringPool::save_cstr`: return the address already cached for these bytes
when present; otherwise allocate, copy, record and return the fresh address. -/
def StringPool.save_cstr (pool : StringPool) (s : List Nat) : Nat × StringPool :=
  match alist_find? pool.pooled_strs s with
  | some addr => (addr, pool)
  | none =>
    (pool.next_addr,
     { pooled_strs := pool.pooled_strs ++ [(s, pool.next_addr)]
       next_addr := pool.next_addr + 1 })

/-- Run a sequence of `save_cstr` calls, collecting the returned references. -/
def intern_run (pool : StringPool) : List (List Nat) → List Nat × StringPool
  | [] => ([], pool)
  | s :: ss =>
    ((pool.save_cstr s).1 :: (intern_run (pool.save_cstr s).2 ss).1,
     (intern_run (pool.save_cstr s).2 ss).2)

/-- References returned by interning `inputs` in order into a fresh pool. -/
def intern_all (inputs : List (List Nat)) : List Nat :=
  (intern_run StringPool.empty inputs).1

/-! ## ActiveFileManager (`src/Server/Server.cpp`)

The open-file LRU: a list of `(path, open file)` entries, front = most
recently used, plus the capacity. The side `index` map of the C++ class
mirrors `items` and carries no extra state. -/

/-- The slice of an open-file entry the LRU contract talks about: whether the
entry's rebuild mutex (`ast_built_lock`) is currently held. -/
structure OpenFile where
  ast_built_lock_held : Bool
deriving DecidableEq

instance : Inhabited OpenFile := ⟨{ ast_built_lock_held := false }⟩

/-- LRU state of `ActiveFileManager`. -/
structure ActiveFileManager where
  items : List (List Nat × OpenFile)
  capability : Nat
deriving DecidableEq

/-- `ActiveFileManager::lru_put_impl`: when the chain already holds at least
`capability` entries, drop the tail entry (whatever its state); then push the
new entry at the front. -/
def ActiveFileManager.lru_put_impl (m : ActiveFileManager) (path : List Nat) (file : OpenFile) :
    ActiveFileManager :=
  let items := if m.capability ≤ m.items.length then m.items.dropLast else m.items
  { m with items := (path, file) :: items }

/-- `ActiveFileManager::get_or_add`: splice an existing entry to the front, or
insert a default-constructed open file through `lru_put_impl`. -/
def ActiveFileManager.get_or_add (m : ActiveFileManager) (path : List Nat) :
    ActiveFileManager :=
  match alist_find? m.items path with
  | none => m.lru_put_impl path default
  | some e => { m with items := (path, e) :: alist_erase m.items path }

/-! ## LSP inbound framing (`src/Async/Network.cpp`, `on_read`)

Bytes are `Char` lists. The JSON parser is abstracted to a validity predicate:
a valid payload is handed to the dispatch callback, an invalid one aborts the
process (`log::fatal`). -/

/-- Outcome of one `on_read` callback: the remaining buffer together with the
payloads dispatched during the call, or a fatal abort. -/
inductive ReadOutcome where
  | ok (buffer : List Char) (dispatched : List (List Char))
  | fatal
deriving DecidableEq

/-- `StringRef::consume_front`: strip an expected literal from the front. -/
def strip_front : List Char → List Char → Option (List Char)
  | [], s => some s
  | _ :: _, [] => none
  | p :: ps, c :: cs => if p = c then strip_front ps cs else none

/-- Decimal digit test used by `StringRef::consumeInteger(10, …)`. -/
def is_digit (c : Char) : Bool := decide ('0' ≤ c) && decide (c ≤ '9')

/-- Numeric value of a run of decimal digits. -/
def digits_val (ds : List Char) : Nat :=
  ds.foldl (fun acc c => acc * 10 + (c.toNat - '0'.toNat)) 0

/-- The header literal the framing matches. -/
def content_length_header : List Char := "Content-Length: ".toList

/-- The blank line terminating the header block. -/
def crlf_crlf : List Char := "\r\n\r\n".toList

/-- `on_read` (the data path, lines 38-66): append the chunk to the static
buffer; then, if the buffer begins with `Content-Length: `, a digit run and a
blank line and holds the announced number of payload bytes, parse that single
message, dispatch it and erase it from the buffer — otherwise leave the
buffer as it is. At most one message is examined per call. -/
def on_read (valid : List Char → Bool) (buffer chunk : List Char) : ReadOutcome :=
  let buf := buffer ++ chunk
  match strip_front content_length_header buf with
  | none => .ok buf []
  | some rest =>
    let ds := rest.takeWhile is_digit
    if ds = [] then .ok buf []
    else
      match strip_front crlf_crlf (rest.dropWhile is_digit) with
      | none => .ok buf []
      | some body =>
        let length := digits_val ds
        if length ≤ body.length then
          let result := body.take length
          if valid result then .ok (body.drop length) [result]
          else .fatal
        else .ok buf []

/-! ## Driver probing (`src/Compiler/Driver.h`)

Paths and process output are `Char` lists. The file system and the child
process are an oracle record; everything else — family classification, the
stderr parser, the dispatch on family — is the code's own logic. -/

/-- Error kinds of `QueryDriverError`. Modelled from the spec: `Driver.h`
consumes a namespace-scope `QueryDriverError` whose declaration is absent
from the sources at hand (the nested, older copy inside
`CompilationDatabase` lacks the `NotImplemented` member that `Driver.h`
returns); the spec declares these six kinds. -/
inductive ErrorKind where
  | NotFoundInPATH
  | FailToCreateTempFile
  | InvokeDriverFail
  | OutputFileNotReadable
  | InvalidOutputFormat
  | NotImplemented
deriving DecidableEq

/-- A typed driver-query error: kind plus detail message. -/
structure QueryDriverError where
  kind : ErrorKind
  detail : List Char
deriving DecidableEq

/-- `CompilerFamily` from `Driver.h`. -/
inductive CompilerFamily where
  | Unknown
  | GCC
  | Clang
  | MSVC
  | ClangCL
  | NVCC
  | Intel
  | Zig
deriving DecidableEq

/-- Leading-edge match of `needle` against `hay`. -/
def starts_with : List Char → List Char → Bool
  | [], _ => true
  | _ :: _, [] => false
  | n :: ns, h :: hs => (n = h : Bool) && starts_with ns hs

/-- `StringRef::contains`: substring search. -/
def contains_sub (hay needle : List Char) : Bool :=
  match hay with
  | [] => needle.isEmpty
  | _ :: t => starts_with needle hay || contains_sub t needle

/-- `llvm::sys::path::filename`: the component after the last separator. -/
def path_filename (p : List Char) : List Char :=
  (p.reverse.takeWhile (fun c => c ≠ '/')).reverse

/-- `StringRef::consume_back(".exe")`: drop the suffix when present. -/
def strip_exe (s : List Char) : List Char :=
  if s.reverse.take 4 = (".exe".toList).reverse then s.dropLast.dropLast.dropLast.dropLast else s

/-- `driver_family`: classify a driver path by its (``.exe``-stripped) file
name, in the cascade order of the source. -/
def driver_family (driver : List Char) : CompilerFamily :=
  let driver_name := strip_exe (path_filename driver)
  if driver_name = "cl".toList then .MSVC
  else if driver_name = "nvcc".toList then .NVCC
  else if contains_sub driver_name "clang-cl".toList then .ClangCL
  else if contains_sub driver_name "clang".toList then .Clang
  else if driver_name = "cc".toList ∨ driver_name = "c++".toList ∨
      contains_sub driver_name "gcc".toList ∨ contains_sub driver_name "g++".toList then .GCC
  else if contains_sub driver_name "icpc".toList ∨ contains_sub driver_name "icc".toList ∨
      contains_sub driver_name "dpcpp".toList ∨ contains_sub driver_name "icx".toList then .Intel
  else if contains_sub driver_name "zig".toList then .Zig
  else .Unknown

/-- Successful probe result (`QueryResult`). -/
structure QueryResult where
  target : List Char
  includes : List (List Char)
deriving DecidableEq

/-- Whitespace set of `StringRef::trim`. -/
def is_trim_ws (c : Char) : Bool :=
  c = ' ' ∨ c = '\t' ∨ c = '\n' ∨ (c = Char.ofNat 11) ∨ (c = Char.ofNat 12) ∨ c = '\r'

/-- Trim both edges. -/
def trim_ws (s : List Char) : List Char :=
  ((s.dropWhile is_trim_ws).reverse.dropWhile is_trim_ws).reverse

/-- Split on a separator, omitting empty pieces (`KeepEmpty = false`). -/
def split_drop_empty (sep : Char) (s : List Char) : List (List Char) :=
  ((s.splitOn sep).filter (fun l => !l.isEmpty))

/-- Line scanner state of `parse_query_result`. -/
structure ParseState where
  target : List Char
  includes : List (List Char)
  in_includes_block : Bool
  found_start_marker : Bool

/-- `parse_query_result`: scan the trimmed stderr lines for `Target: `, the
search-list start marker and the end marker, collecting include lines between
the markers; missing markers are an `InvalidOutputFormat` error. -/
def parse_query_result (content : List Char) : Except QueryDriverError QueryResult :=
  let ts := "Target: ".toList
  let sis := "#include <...> search starts here:".toList
  let sie := "End of search list.".toList
  let final := (split_drop_empty '\n' content).foldl
    (fun (st : ParseState) line_ref =>
      let line := trim_ws line_ref
      if starts_with ts line then { st with target := line.drop ts.length }
      else if line = sis then { st with found_start_marker := true, in_includes_block := true }
      else if line = sie then
        if st.in_includes_block then { st with in_includes_block := false } else st
      else if st.in_includes_block then { st with includes := st.includes ++ [line] }
      else st)
    { target := [], includes := [], in_includes_block := false, found_start_marker := false }
  if !final.found_start_marker then
    .error { kind := .InvalidOutputFormat, detail := "Start marker not found...".toList }
  else if final.in_includes_block then
    .error { kind := .InvalidOutputFormat, detail := "End marker not found...".toList }
  else .ok { target := final.target, includes := final.includes }

/-- Oracle for the effects `query_driver` performs: `PATH` resolution, the two
file-system checks, temp-file creation, the child process (exit code, error
message, captured stderr) and the bundled MSVC toolchain lookup. -/
structure DriverEnv where
  find_program : Option (List Char)
  find_program_error : List Char
  file_exists : Bool
  can_execute : Bool
  create_temp : Bool
  create_temp_error : List Char
  exec_rc : Nat
  exec_message : List Char
  output_content : Option (List Char)
  output_error : List Char
  msvc_includes : List (List Char)

/-- POSIX `llvm::sys::path::is_absolute`. -/
def is_absolute (p : List Char) : Bool :=
  match p with
  | [] => false
  | c :: _ => c = '/'

/-- The path `query_driver` actually checks and classifies: the input when
absolute, otherwise the `findProgramByName` result. -/
def resolve_driver (env : DriverEnv) (driver : List Char) : Option (List Char) :=
  if is_absolute driver then some driver else env.find_program

/-- `query_driver`: resolve the driver, check it is an executable file,
classify its family, and dispatch: GCC/Clang invoke the driver and parse its
stderr; MSVC/clang-cl use the bundled toolchain; nvcc, Intel, zig and unknown
drivers are refused with `NotImplemented` before any invocation. The boolean
records whether `ExecuteAndWait` ran the driver. -/
def query_driver (env : DriverEnv) (driver : List Char) :
    Except QueryDriverError QueryResult × Bool :=
  match resolve_driver env driver with
  | none => (.error { kind := .NotFoundInPATH, detail := env.find_program_error }, false)
  | some resolved =>
    if !(env.file_exists && env.can_execute) then
      (.error { kind := .NotFoundInPATH, detail := [] }, false)
    else
      let family := driver_family resolved
      if family = .NVCC ∨ family = .Intel ∨ family = .Zig ∨ family = .Unknown then
        (.error { kind := .NotImplemented, detail := [] }, false)
      else if family = .GCC ∨ family = .Clang then
        if !env.create_temp then
          (.error { kind := .FailToCreateTempFile, detail := env.create_temp_error }, false)
        else if env.exec_rc ≠ 0 then
          (.error { kind := .InvokeDriverFail, detail := env.exec_message }, true)
        else
          match env.output_content with
          | none => (.error { kind := .OutputFileNotReadable, detail := env.output_error }, true)
          | some content =>
            match parse_query_result content with
            | .error e => (.error e, true)
            | .ok info => (.ok info, true)
      else
        (.ok { target := "x86_64-pc-windows-msvc".toList, includes := env.msvc_includes }, false)

/-! ## Concrete states used to exercise the lookup paths -/

/-- An in-memory merged index holding the three occurrences
`[0,9)`, `[1,2)` and `[1,5)` of symbol `0`, each live in canonical id `0`. -/
def offset_demo_index : MergedIndex :=
  { buffer := none
    impl := some
      { Impl.empty with occurrences :=
          [({ range := { begin_ := 0, end_ := 9 }, target := 0 }, [0]),
           ({ range := { begin_ := 1, end_ := 2 }, target := 0 }, [0]),
           ({ range := { begin_ := 1, end_ := 5 }, target := 0 }, [0])] } }

/-- An in-memory merged index whose symbol `5` has one relation of kind `1`. -/
def relation_demo_index : MergedIndex :=
  { buffer := none
    impl := some
      { Impl.empty with relations :=
          [(5, [({ kind := 1, range := { begin_ := 0, end_ := 0 }, target_symbol := 0 }, [0])])] } }

/-- A builder that interned one range and two symbols and appended three
occurrences, the two mentions of symbol `0` separated by one of symbol `1`. -/
def dup_demo_builder : builder.Builder :=
  { symbols := [{ id := 0, kind := 0 }, { id := 1, kind := 0 }]
    ranges := [{ begin_ := 0, end_ := 1 }]
    occurrences := [{ location := 0, symbol := 0 }, { location := 0, symbol := 1 },
                    { location := 0, symbol := 0 }] }

/-- C1. The offset lookup misses stored occurrences that contain the offset:
the in-memory cache is sorted with `refl::less` (begin-major) while the
`lower_bound` that starts the scan projects `range.end`, so on the stored
occurrences `[0,9)`, `[1,2)`, `[1,5)` the lookup at offset `3` yields only
`[1,5)` and omits `[0,9)` even though `0 ≤ 3 < 9`. This refutes the claim
that no stored occurrence whose range contains the offset is omitted. -/
theorem lookup_offset_omits_containing_occurrence :
    MergedIndex.lookup_offset offset_demo_index 3 =
      [{ range := { begin_ := 1, end_ := 5 }, target := 0 }] ∧
    (∃ impl, offset_demo_index.impl = some impl ∧
      ({ range := { begin_ := 0, end_ := 9 }, target := 0 } : Occurrence) ∈
        impl.occurrences.map Prod.fst) ∧
    LocalSourceRange.contains { begin_ := 0, end_ := 9 } 3 = true ∧
    ({ range := { begin_ := 0, end_ := 9 }, target := 0 } : Occurrence) ∉
      MergedIndex.lookup_offset offset_demo_index 3 := by
  refine ⟨by decide, ⟨_, rfl, by decide⟩, by decide, by decide⟩

/-- C2. The in-memory symbol lookup ignores the relation-kind mask: the stored
relation of symbol `5` has kind `1`, the query mask `2` does not intersect it
(`1 &&& 2 = 0`), yet the relation is yielded. -/
theorem lookup_symbol_in_memory_ignores_kind_mask :
    MergedIndex.lookup_symbol relation_demo_index 5 2 =
      [{ kind := 1, range := { begin_ := 0, end_ := 0 }, target_symbol := 0 }] ∧
    (1 : Nat) &&& 2 = 0 := by
  exact ⟨by decide, by decide⟩

/-- C5. After `SymbolIndexBuilder::sort`, the occurrence list need be neither
duplicate-free nor strictly ascending in `(range.begin, range.end, target)`:
occurrences are sorted by their `location` field alone, so the appended
sequence `(r0,s0), (r0,s1), (r0,s0)` survives the sort unchanged, the
`ranges::unique` step removes nothing (the duplicates are not adjacent), and
the resulting targets `0, 1, 0` are not ascending. -/
theorem sort_occurrences_keeps_interleaved_duplicate :
    builder.sort_occurrences dup_demo_builder =
      [{ location := 0, symbol := 0 }, { location := 0, symbol := 1 },
       { location := 0, symbol := 0 }] ∧
    ¬ (builder.sort_occurrences dup_demo_builder).Nodup := by
  exact ⟨by decide, by decide⟩

/-! ## Association-list lemmas shared by the merge proofs -/

theorem alist_find?_append_right {κ ν : Type} [DecidableEq κ] {m : List (κ × ν)} {k : κ}
    (h : alist_find? m k = none) (n : List (κ × ν)) :
    alist_find? (m ++ n) k = alist_find? n k := by
  induction m with
  | nil => simp
  | cons e rest ih =>
    obtain ⟨k', v⟩ := e
    by_cases hk : k' = k
    · simp [alist_find?, hk] at h
    · simp only [alist_find?, hk, if_false] at h ⊢
      simpa using ih h

theorem alist_find?_append_left {κ ν : Type} [DecidableEq κ] {m : List (κ × ν)} {k : κ} {v : ν}
    (h : alist_find? m k = some v) (n : List (κ × ν)) :
    alist_find? (m ++ n) k = some v := by
  induction m with
  | nil => simp [alist_find?] at h
  | cons e rest ih =>
    obtain ⟨k', v'⟩ := e
    by_cases hk : k' = k
    · simp only [alist_find?, hk, if_true] at h ⊢
      simpa using h
    · simp only [alist_find?, hk, if_false] at h ⊢
      simpa using ih h

theorem alist_find?_filter_none {κ ν : Type} [DecidableEq κ] {m : List (κ × ν)} {k : κ}
    (h : alist_find? m k = none) :
    m.filter (fun e => e.1 = k) = [] := by
  induction m with
  | nil => rfl
  | cons e rest ih =>
    obtain ⟨k', v⟩ := e
    by_cases hk : k' = k
    · simp [alist_find?, hk] at h
    · simp only [alist_find?, hk, if_false] at h
      simpa [List.filter, hk] using ih h

theorem alist_find?_modify_self {κ ν : Type} [DecidableEq κ] (m : List (κ × ν)) (k : κ)
    (d : ν) (f : ν → ν) :
    alist_find? (alist_modify m k d f) k = some (f ((alist_find? m k).getD d)) := by
  induction m with
  | nil => simp [alist_modify, alist_find?]
  | cons e rest ih =>
    obtain ⟨k', v⟩ := e
    by_cases hk : k' = k
    · simp [alist_modify, alist_find?, hk]
    · simp [alist_modify, alist_find?, hk, ih]

theorem alist_find?_modify_ne {κ ν : Type} [DecidableEq κ] (m : List (κ × ν)) {k k' : κ}
    (hne : k' ≠ k) (d : ν) (f : ν → ν) :
    alist_find? (alist_modify m k' d f) k = alist_find? m k := by
  induction m with
  | nil => simp [alist_modify, alist_find?, hne]
  | cons e rest ih =>
    obtain ⟨k0, v⟩ := e
    by_cases hk : k0 = k'
    · have : k0 ≠ k := by rw [hk]; exact hne
      simp [alist_modify, alist_find?, hk, this, hne]
    · simp [alist_modify, alist_find?, hk, ih]

theorem list_inc_u32_concat (l : List Nat) (x : Nat) :
    list_inc_u32 (l ++ [x]) l.length = l ++ [(x + 1) % u32_size] := by
  induction l with
  | nil => rfl
  | cons y ys ih => simpa [list_inc_u32] using ih

theorem list_inc_u32_length (l : List Nat) (i : Nat) :
    (list_inc_u32 l i).length = l.length := by
  induction l generalizing i with
  | nil => rfl
  | cons y ys ih =>
    cases i with
    | zero => simp [list_inc_u32]
    | succ n => simp [list_inc_u32, ih]

/-! ## Claim theorems about merge, remove and serialize -/

/-- C3. Merging the same snapshot (equal SHA-256 bytes, fresh in the cache)
from two distinct translation units creates exactly one canonical id — the
cache holds a single entry for those bytes, bound to the previous
`max_canonical_id`, and only one id was allocated — with reference count 2;
removing one of the two translation units afterwards leaves the count at 1
and adds nothing to the tombstone set. -/
theorem merge_dedup_refcount (S : Impl) (tu1 tu2 pos1 pos2 : Nat) (fi : FileIndex)
    (hfresh : alist_find? S.canonical_cache fi.hash = none)
    (hlen : S.canonical_ref_counts.length = S.max_canonical_id)
    (htu : tu1 ≠ tu2)
    (htu1 : ((alist_find? S.header_contexts tu1).getD default).includes = []) :
    (((S.merge tu1 pos1 fi).merge tu2 pos2 fi).canonical_cache.filter
        (fun e => e.1 = fi.hash)) = [(fi.hash, S.max_canonical_id)] ∧
    alist_find? ((S.merge tu1 pos1 fi).merge tu2 pos2 fi).canonical_cache fi.hash =
      some S.max_canonical_id ∧
    ((S.merge tu1 pos1 fi).merge tu2 pos2 fi).max_canonical_id = S.max_canonical_id + 1 ∧
    ((S.merge tu1 pos1 fi).merge tu2 pos2 fi).canonical_ref_counts[S.max_canonical_id]? =
      some 2 ∧
    (((S.merge tu1 pos1 fi).merge tu2 pos2 fi).remove tu1).canonical_ref_counts[S.max_canonical_id]? =
      some 1 ∧
    (((S.merge tu1 pos1 fi).merge tu2 pos2 fi).remove tu1).removed =
      ((S.merge tu1 pos1 fi).merge tu2 pos2 fi).removed := by
  have hfind1 :
      alist_find? (S.canonical_cache ++ [(fi.hash, S.max_canonical_id)]) fi.hash =
        some S.max_canonical_id := by
    rw [alist_find?_append_right hfresh]
    simp [alist_find?]
  have h2 : ((1 : Nat) + 1) % u32_size = 2 := by decide
  have h1 : ((2 : Nat) + (u32_size - 1)) % u32_size = 1 := by decide
  -- the first merge misses the cache
  set S1 := S.merge tu1 pos1 fi with hS1
  have c1 : S1.canonical_cache = S.canonical_cache ++ [(fi.hash, S.max_canonical_id)] := by
    rw [hS1]; unfold Impl.merge; rw [hfresh]
  have hcx1 : S1.header_contexts = alist_modify S.header_contexts tu1 default
      (fun c => { c with includes := c.includes ++ [(pos1, S.max_canonical_id)] }) := by
    rw [hS1]; unfold Impl.merge; rw [hfresh]
  have rc1 : S1.canonical_ref_counts = S.canonical_ref_counts ++ [1] := by
    rw [hS1]; unfold Impl.merge; rw [hfresh]
  have mx1 : S1.max_canonical_id = S.max_canonical_id + 1 := by
    rw [hS1]; unfold Impl.merge; rw [hfresh]
  -- the second merge hits the cache entry made by the first
  have sc2 : alist_find? S1.canonical_cache fi.hash = some S.max_canonical_id := by
    rw [c1]; exact hfind1
  set S2 := S1.merge tu2 pos2 fi with hS2
  have c2 : S2.canonical_cache = S1.canonical_cache := by
    rw [hS2]; unfold Impl.merge; rw [sc2]
  have hcx2 : S2.header_contexts = alist_modify S1.header_contexts tu2 default
      (fun c => { c with includes := c.includes ++ [(pos2, S.max_canonical_id)] }) := by
    rw [hS2]; unfold Impl.merge; rw [sc2]
  have rc2 : S2.canonical_ref_counts = list_inc_u32 S1.canonical_ref_counts S.max_canonical_id := by
    rw [hS2]; unfold Impl.merge; rw [sc2]
  have mx2 : S2.max_canonical_id = S1.max_canonical_id := by
    rw [hS2]; unfold Impl.merge; rw [sc2]
  have rcv : S2.canonical_ref_counts = S.canonical_ref_counts ++ [2] := by
    rw [rc2, rc1, ← hlen, list_inc_u32_concat, h2]
  have grc : S2.canonical_ref_counts[S.max_canonical_id]? = some 2 := by
    rw [rcv, ← hlen]; exact List.getElem?_concat_length _ _
  have inc_tu1 : ((alist_find? S2.header_contexts tu1).getD default).includes =
      [(pos1, S.max_canonical_id)] := by
    rw [hcx2, alist_find?_modify_ne _ (Ne.symm htu), hcx1, alist_find?_modify_self]
    simp [htu1]
  have hrem : (S2.remove tu1).canonical_ref_counts =
      S2.canonical_ref_counts.set S.max_canonical_id 1 ∧
      (S2.remove tu1).removed = S2.removed := by
    unfold Impl.remove
    rw [inc_tu1]
    simp only [List.foldl_cons, List.foldl_nil, grc, h1]
    simp
  refine ⟨?_, ?_, ?_, grc, ?_, hrem.2⟩
  · rw [c2, c1, List.filter_append, alist_find?_filter_none hfresh]
    simp
  · rw [c2]; exact sc2
  · rw [mx2, mx1]
  · rw [hrem.1, rcv, ← hlen]
    exact List.getElem?_set_self (by simp)

/-- A one-occurrence snapshot used to drive the merge-level witnesses and the
garbage-collection counterexample. -/
def gc_demo_fi : FileIndex :=
  { occurrences := [{ range := { begin_ := 2, end_ := 4 }, target := 9 }]
    relations := []
    hash := [7] }

/-- Witness: the dedup/refcount theorem applied to two fresh translation
units merging `gc_demo_fi` into an empty index. -/
theorem merge_dedup_refcount_witness :
    ((Impl.empty.merge 0 0 gc_demo_fi).merge 1 0 gc_demo_fi).canonical_ref_counts[0]? = some 2 ∧
    ((((Impl.empty.merge 0 0 gc_demo_fi).merge 1 0 gc_demo_fi).remove 0).canonical_ref_counts)[0]? =
      some 1 :=
  ⟨(merge_dedup_refcount Impl.empty 0 1 0 0 gc_demo_fi (by decide) (by decide) (by decide)
      (by decide)).2.2.2.1,
   (merge_dedup_refcount Impl.empty 0 1 0 0 gc_demo_fi (by decide) (by decide) (by decide)
      (by decide)).2.2.2.2.1⟩

/-- A reachable state with a tombstoned canonical id: one snapshot merged from
one translation unit and then removed, driving its reference count to zero. -/
def gc_demo_impl : Impl := (Impl.empty.merge 0 0 gc_demo_fi).remove 0

/-- C4 counterexample. `serialize` performs no garbage collection: in the
reachable state `gc_demo_impl` the canonical id `0` is tombstoned, yet after
serialization the tombstone set still holds `0` (it is not empty), the
emitted canonical cache still carries the tombstoned entry, and the emitted
occurrence bitmap still has bit `0` set. -/
theorem serialize_keeps_tombstones_cx :
    gc_demo_impl.removed = [0] ∧
    gc_demo_impl.serialize.2.removed = [0] ∧
    gc_demo_impl.serialize.1.canonical_cache = [([7], 0)] ∧
    gc_demo_impl.serialize.1.occurrences =
      [({ range := { begin_ := 2, end_ := 4 }, target := 9 }, [0])] := by
  exact ⟨by decide, by decide, by decide, by decide⟩

/-- C4 amended. `serialize` emits the state verbatim and leaves it unchanged:
for every in-memory state and every tombstoned id, the id keeps its canonical
cache binding and all of its bitmap bits in the emitted container, and the
state after serialization — including the tombstone set — is the state
before. No renumbering map, bitmap clearing, cache pruning or reference-count
re-indexing happens. -/
theorem serialize_no_compaction (impl : Impl) (id : Nat) (h : id ∈ impl.removed) :
    impl.serialize.2 = impl ∧
    impl.serialize.1.occurrences = impl.occurrences ∧
    impl.serialize.1.relations = impl.relations ∧
    impl.serialize.1.canonical_cache = impl.canonical_cache ∧
    impl.serialize.1.contexts = impl.header_contexts ∧
    id ∈ impl.serialize.2.removed := by
  exact ⟨rfl, rfl, rfl, rfl, rfl, h⟩

/-- Witness: the no-compaction theorem applied to the reachable tombstoned
state `gc_demo_impl`. -/
theorem serialize_no_compaction_witness :
    gc_demo_impl.serialize.2 = gc_demo_impl ∧ (0 : Nat) ∈ gc_demo_impl.serialize.2.removed :=
  ⟨(serialize_no_compaction gc_demo_impl 0 (by decide)).1,
   (serialize_no_compaction gc_demo_impl 0 (by decide)).2.2.2.2.2⟩

/-! ## StringPool lemmas -/

/-- Pool invariant: every cached address is below the allocation frontier, and
no two distinct byte strings share an address. -/
def pool_inv (pool : StringPool) : Prop :=
  (∀ e ∈ pool.pooled_strs, e.2 < pool.next_addr) ∧
  (∀ e1 ∈ pool.pooled_strs, ∀ e2 ∈ pool.pooled_strs, e1.2 = e2.2 → e1.1 = e2.1)

theorem alist_find?_mem {κ ν : Type} [DecidableEq κ] {m : List (κ × ν)} {k : κ} {v : ν}
    (h : alist_find? m k = some v) : (k, v) ∈ m := by
  induction m with
  | nil => simp [alist_find?] at h
  | cons e rest ih =>
    obtain ⟨k', v'⟩ := e
    by_cases hk : k' = k
    · simp only [alist_find?, hk, if_true, Option.some.injEq] at h
      subst hk h
      exact List.mem_cons_self _ _
    · simp only [alist_find?, hk, if_false] at h
      exact List.mem_cons_of_mem _ (ih h)

theorem pool_inv_empty : pool_inv StringPool.empty := by
  constructor <;> simp [StringPool.empty]

theorem save_cstr_inv {pool : StringPool} (h : pool_inv pool) (s : List Nat) :
    pool_inv (pool.save_cstr s).2 := by
  unfold StringPool.save_cstr
  cases hf : alist_find? pool.pooled_strs s with
  | some addr => exact h
  | none =>
    obtain ⟨hbound, hinj⟩ := h
    constructor
    · intro e he
      rcases List.mem_append.1 he with he | he
      · exact Nat.lt_succ_of_lt (hbound e he)
      · simp at he
        simp [he]
    · intro e1 he1 e2 he2 heq
      rcases List.mem_append.1 he1 with he1 | he1 <;>
        rcases List.mem_append.1 he2 with he2 | he2
      · exact hinj e1 he1 e2 he2 heq
      · simp at he2
        have := hbound e1 he1
        rw [he2] at heq
        simp [heq] at this
      · simp at he1
        have := hbound e2 he2
        rw [he1] at heq
        simp [← heq] at this
      · simp at he1 he2
        rw [he1, he2]

theorem save_cstr_find_self (pool : StringPool) (s : List Nat) :
    alist_find? (pool.save_cstr s).2.pooled_strs s = some (pool.save_cstr s).1 := by
  unfold StringPool.save_cstr
  cases hf : alist_find? pool.pooled_strs s with
  | some addr => exact hf
  | none =>
    rw [alist_find?_append_right hf]
    simp [alist_find?]

theorem save_cstr_find_mono {pool : StringPool} {t : List Nat} {a : Nat}
    (h : alist_find? pool.pooled_strs t = some a) (s : List Nat) :
    alist_find? (pool.save_cstr s).2.pooled_strs t = some a := by
  unfold StringPool.save_cstr
  cases hf : alist_find? pool.pooled_strs s with
  | some addr => exact h
  | none => exact alist_find?_append_left h _

theorem intern_run_inv {pool : StringPool} (h : pool_inv pool) (inputs : List (List Nat)) :
    pool_inv (intern_run pool inputs).2 := by
  induction inputs generalizing pool with
  | nil => exact h
  | cons s ss ih => exact ih (save_cstr_inv h s)

theorem intern_run_find_mono {pool : StringPool} {t : List Nat} {a : Nat}
    (h : alist_find? pool.pooled_strs t = some a) (inputs : List (List Nat)) :
    alist_find? (intern_run pool inputs).2.pooled_strs t = some a := by
  induction inputs generalizing pool with
  | nil => exact h
  | cons s ss ih => exact ih (save_cstr_find_mono h s)

theorem intern_run_find {pool : StringPool} {s : List Nat} {r : Nat}
    {inputs : List (List Nat)}
    (h : (s, r) ∈ inputs.zip (intern_run pool inputs).1) :
    alist_find? (intern_run pool inputs).2.pooled_strs s = some r := by
  induction inputs generalizing pool with
  | nil => simp [intern_run] at h
  | cons s0 ss ih =>
    simp only [intern_run, List.zip_cons_cons, List.mem_cons, Prod.mk.injEq] at h
    rcases h with ⟨hs, hr⟩ | h
    · subst hs
      subst hr
      exact intern_run_find_mono (save_cstr_find_self pool s) ss
    · exact ih h

/-- C6. Interning is content-keyed and allocation-backed: across any sequence
of `save_cstr` calls into a fresh pool, two calls return pointer-identical
references precisely when their argument bytes are equal (in particular,
interning the same bytes twice returns the same reference). -/
theorem save_cstr_ref_eq_iff_bytes_eq (inputs : List (List Nat)) (p q : List Nat × Nat)
    (hp : p ∈ inputs.zip (intern_all inputs))
    (hq : q ∈ inputs.zip (intern_all inputs)) :
    p.2 = q.2 ↔ p.1 = q.1 := by
  obtain ⟨ps, pr⟩ := p
  obtain ⟨qs, qr⟩ := q
  have hfp : alist_find? (intern_run StringPool.empty inputs).2.pooled_strs ps = some pr :=
    intern_run_find hp
  have hfq : alist_find? (intern_run StringPool.empty inputs).2.pooled_strs qs = some qr :=
    intern_run_find hq
  have hinv := intern_run_inv pool_inv_empty inputs
  constructor
  · intro hr
    have hr' : pr = qr := hr
    exact hinv.2 (ps, pr) (alist_find?_mem hfp) (qs, qr) (alist_find?_mem hfq) hr'
  · intro hs
    have hs' : ps = qs := hs
    subst hs'
    rw [hfp] at hfq
    exact Option.some.inj hfq

/-- Witness: interning `[1]`, `[2]`, `[1]` yields references `0`, `1`, `0`;
the theorem instantiated at the first and second call sites. -/
theorem save_cstr_ref_eq_iff_bytes_eq_witness :
    (0 : Nat) = 1 ↔ ([1] : List Nat) = [2] :=
  save_cstr_ref_eq_iff_bytes_eq [[1], [2], [1]] ([1], 0) ([2], 1) (by decide) (by decide)

/-! ## Open-file LRU theorems -/

/-- An LRU of capacity 1 holding one entry whose rebuild mutex is held. -/
def locked_demo_lru : ActiveFileManager :=
  { items := [([0], { ast_built_lock_held := true })], capability := 1 }

/-- C7 counterexample. Capacity-driven eviction does not check the rebuild
mutex: in `locked_demo_lru` the single entry's `ast_built_lock` is held, yet
`get_or_add` of a fresh path evicts it all the same, refuting the conjunct
"never evicts an entry whose rebuild mutex is held". -/
theorem get_or_add_evicts_locked_entry_cx :
    alist_find? locked_demo_lru.items [0] = some { ast_built_lock_held := true } ∧
    (locked_demo_lru.get_or_add [1]).items = [([1], { ast_built_lock_held := false })] ∧
    alist_find? (locked_demo_lru.get_or_add [1]).items [0] = none := by
  exact ⟨by decide, by decide, by decide⟩

/-- C7 amended. The LRU contract that does hold: `get_or_add` splices an
existing entry to the front leaving the other entries in order; on a miss at
or above capacity the tail entry is evicted — irrespective of its rebuild
mutex — and the fresh entry is pushed at the front; on a miss below capacity
nothing is evicted. -/
theorem get_or_add_lru_contract (m : ActiveFileManager) (path : List Nat) :
    (∀ e, alist_find? m.items path = some e →
      (m.get_or_add path).items = (path, e) :: alist_erase m.items path) ∧
    (alist_find? m.items path = none → m.capability ≤ m.items.length →
      (m.get_or_add path).items = (path, default) :: m.items.dropLast) ∧
    (alist_find? m.items path = none → m.items.length < m.capability →
      (m.get_or_add path).items = (path, default) :: m.items) := by
  refine ⟨?_, ?_, ?_⟩
  · intro e he
    unfold ActiveFileManager.get_or_add
    rw [he]
  · intro hn hcap
    unfold ActiveFileManager.get_or_add ActiveFileManager.lru_put_impl
    rw [hn]
    simp [hcap]
  · intro hn hcap
    unfold ActiveFileManager.get_or_add ActiveFileManager.lru_put_impl
    rw [hn]
    simp [Nat.not_le.mpr hcap]

/-- Witness: the at-capacity miss case of the LRU contract applied to
`locked_demo_lru` and the fresh path `[1]`. -/
theorem get_or_add_lru_contract_witness :
    (locked_demo_lru.get_or_add [1]).items =
      ([1], default) :: locked_demo_lru.items.dropLast :=
  (get_or_add_lru_contract locked_demo_lru [1]).2.1 (by decide) (by decide)

/-! ## LSP framing theorems -/

theorem strip_front_append (p s : List Char) : strip_front p (p ++ s) = some s := by
  induction p with
  | nil => rfl
  | cons c cs ih => simp [strip_front, ih]

theorem takeWhile_append_all {p : Char → Bool} {l : List Char} (h : l.all p)
    {y : Char} (hy : p y = false) (t : List Char) :
    (l ++ y :: t).takeWhile p = l := by
  induction l with
  | nil => simp [List.takeWhile, hy]
  | cons c cs ih =>
    simp only [List.all_cons, Bool.and_eq_true] at h
    simp [List.takeWhile, h.1, ih h.2]

theorem dropWhile_append_all {p : Char → Bool} {l : List Char} (h : l.all p)
    {y : Char} (hy : p y = false) (t : List Char) :
    (l ++ y :: t).dropWhile p = y :: t := by
  induction l with
  | nil => simp [List.dropWhile, hy]
  | cons c cs ih =>
    simp only [List.all_cons, Bool.and_eq_true] at h
    simp [List.dropWhile, h.1, ih h.2]

/-- One complete frame wire sequence. -/
def frame_bytes (ds payload : List Char) : List Char :=
  content_length_header ++ ds ++ crlf_crlf ++ payload

/-- Two copies of a concrete complete frame, and that frame with a leading
extra header line, used to exercise the read callback. -/
def demo_frame : List Char := frame_bytes ['2'] "ab".toList

/-- C8 counterexample. The read callback neither extracts every complete frame
in the buffer nor tolerates other header lines: with two complete frames in
one chunk only the first is dispatched (the second stays buffered), and a
frame preceded by an unknown header line is not dispatched at all. -/
theorem on_read_single_frame_cx :
    on_read (fun _ => true) [] (demo_frame ++ demo_frame) =
      .ok demo_frame ["ab".toList] ∧
    on_read (fun _ => true) [] ("X-Other: 1\r\n".toList ++ demo_frame) =
      .ok ("X-Other: 1\r\n".toList ++ demo_frame) [] := by
  exact ⟨by decide, by decide⟩

/-- C8 amended. Per read callback at most one frame is consumed, and only a
frame sitting at the very start of the buffer: when the accumulated bytes
begin with `Content-Length: <digits>\r\n\r\n` followed by the announced
number of payload bytes, exactly that first message is parsed, dispatched and
erased, and everything behind it — even another complete frame — stays in
the buffer for a later callback. -/
theorem on_read_extracts_front_frame (valid : List Char → Bool)
    (buffer chunk ds payload rest : List Char)
    (hbuf : buffer ++ chunk = frame_bytes ds payload ++ rest)
    (hds : ds ≠ [])
    (hdig : ds.all is_digit)
    (hlen : payload.length = digits_val ds)
    (hvalid : valid payload = true) :
    on_read valid buffer chunk = .ok rest [payload] := by
  have hr : is_digit '\r' = false := by decide
  have htw : (ds ++ (crlf_crlf ++ (payload ++ rest))).takeWhile is_digit = ds :=
    takeWhile_append_all hdig hr ("\n\r\n".toList ++ (payload ++ rest))
  have hdw : (ds ++ (crlf_crlf ++ (payload ++ rest))).dropWhile is_digit =
      crlf_crlf ++ (payload ++ rest) :=
    dropWhile_append_all hdig hr ("\n\r\n".toList ++ (payload ++ rest))
  unfold on_read
  rw [hbuf]
  simp only [frame_bytes, List.append_assoc, strip_front_append]
  simp only [htw, hdw, if_neg hds, strip_front_append]
  rw [if_pos (by rw [← hlen]; simp)]
  rw [← hlen, List.take_left, List.drop_left, hvalid]
  simp

/-- Witness: the frame-extraction theorem applied to two concrete frames
arriving in one chunk; the second frame is the untouched remainder. -/
theorem on_read_extracts_front_frame_witness :
    on_read (fun _ => true) [] (demo_frame ++ demo_frame) = .ok demo_frame ["ab".toList] :=
  on_read_extracts_front_frame (fun _ => true) [] (demo_frame ++ demo_frame) ['2'] "ab".toList
    demo_frame (by decide) (by decide) (by decide) (by decide) (by decide)

/-! ## Driver prober theorem -/

/-- C9. A driver that resolves to an existing executable classified as nvcc,
an Intel compiler or zig is refused with the typed error kind
`NotImplemented`, and the driver is never invoked (the invocation flag is
`false`). -/
theorem query_driver_not_implemented (env : DriverEnv) (driver resolved : List Char)
    (hres : resolve_driver env driver = some resolved)
    (hexists : env.file_exists = true)
    (hexec : env.can_execute = true)
    (hfam : driver_family resolved = .NVCC ∨ driver_family resolved = .Intel ∨
      driver_family resolved = .Zig) :
    query_driver env driver = (.error { kind := .NotImplemented, detail := [] }, false) := by
  unfold query_driver
  rw [hres]
  simp only [hexists, hexec, Bool.and_self, Bool.not_true, Bool.false_eq_true, if_false]
  rcases hfam with h | h | h <;> simp [h]

/-- The environment used to drive the prober witness: the file-system checks
pass and every other effect is left inert. -/
def nvcc_demo_env : DriverEnv :=
  { find_program := none
    find_program_error := []
    file_exists := true
    can_execute := true
    create_temp := false
    create_temp_error := []
    exec_rc := 0
    exec_message := []
    output_content := none
    output_error := []
    msvc_includes := [] }

/-- Witness: probing `/usr/bin/nvcc` (an absolute path, so it resolves to
itself) returns `NotImplemented` without invoking the driver. -/
theorem query_driver_not_implemented_witness :
    query_driver nvcc_demo_env "/usr/bin/nvcc".toList =
      (.error { kind := .NotImplemented, detail := [] }, false) :=
  query_driver_not_implemented nvcc_demo_env "/usr/bin/nvcc".toList "/usr/bin/nvcc".toList
    (by decide) rfl rfl (Or.inl (by decide))

/-- C10. Loading a path whose file cannot be opened produces an empty merged
index — no buffer, no in-memory state — and on it both lookups yield nothing
for every offset, symbol and mask. -/
theorem load_missing_file_empty_index :
    (MergedIndex.load none).buffer = none ∧
    (MergedIndex.load none).impl = none ∧
    (∀ offset, MergedIndex.lookup_offset (MergedIndex.load none) offset = []) ∧
    (∀ symbol kind, MergedIndex.lookup_symbol (MergedIndex.load none) symbol kind = []) := by
  exact ⟨rfl, rfl, fun _ => rfl, fun _ _ => rfl⟩

end Clice
